import Mathlib

/-
Shallow embedding of `leak-detect-allocator` (src/src/lib.rs).

Strings are modelled as lists of Unicode code points (`List Nat`); heapless
`String<N>` capacities are byte capacities, so the model tracks UTF-8 byte
lengths.  Pointers are `Nat`, with `0` playing the role of the null pointer
returned by a failing system allocator.  A Rust panic (an `unwrap()` failure)
is modelled as `none`.
-/

namespace LeakDetect

/-- UTF-8 encoded length in bytes of one Unicode code point
(Rust `char::len_utf8`). -/
def utf8Len (c : Nat) : Nat :=
  if c < 0x80 then 1 else if c < 0x800 then 2 else if c < 0x10000 then 3 else 4

/-- Byte length of a code-point sequence under UTF-8 (Rust `str::len`). -/
def strBytes (s : List Nat) : Nat := (s.map utf8Len).sum

/-- `heapless::String::<CAP>::from(&str)` delegates to `push_str(..).unwrap()`:
it panics (`none`) when the text's byte length exceeds the capacity; it never
truncates. -/
def heaplessFromStr (cap : Nat) (s : List Nat) : Option (List Nat) :=
  if strBytes s ≤ cap then some s else none

/-- `heapless::String::<CAP>::push(c)` fails when the encoded character does
not fit in the remaining byte capacity; the source calls `.unwrap()` on it, so
`none` models that panic. -/
def heaplessPush (cap : Nat) (s : List Nat) (c : Nat) : Option (List Nat) :=
  if strBytes s + utf8Len c ≤ cap then some (s ++ [c]) else none

/-- The `for c in ... { filename.push(c).unwrap(); }` loop from the wide
branch of `From<&Symbol> for Call`. -/
def pushChars (cap : Nat) : List Nat → List Nat → Option (List Nat)
  | acc, [] => some acc
  | acc, c :: cs =>
    match heaplessPush cap acc c with
    | none => none
    | some acc2 => pushChars cap acc2 cs

/-- UTF-8 continuation byte test (`0x80..=0xBF`). -/
def isCont (b : Nat) : Bool := decide (0x80 ≤ b ∧ b ≤ 0xBF)

/-- `std::str::from_utf8`, fuel-indexed for structural recursion (the fuel is
always instantiated with the byte count, which dominates the number of steps).
Returns the decoded code points; `none` models `Err` — the strict validation
of Rust, rejecting overlong forms, surrogates and out-of-range values. -/
def decodeUtf8Fuel : Nat → List Nat → Option (List Nat)
  | _, [] => some []
  | 0, _ :: _ => none
  | fuel + 1, b :: rest =>
    if b < 0x80 then
      (decodeUtf8Fuel fuel rest).map (fun t => b :: t)
    else if 0xC2 ≤ b ∧ b ≤ 0xDF then
      match rest with
      | [] => none
      | b2 :: rest2 =>
        if isCont b2 then
          (decodeUtf8Fuel fuel rest2).map
            (fun t => ((b - 0xC0) * 0x40 + (b2 - 0x80)) :: t)
        else none
    else if 0xE0 ≤ b ∧ b ≤ 0xEF then
      match rest with
      | [] => none
      | [_] => none
      | b2 :: b3 :: rest3 =>
        let okB2 : Bool :=
          if b = 0xE0 then decide (0xA0 ≤ b2 ∧ b2 ≤ 0xBF)
          else if b = 0xED then decide (0x80 ≤ b2 ∧ b2 ≤ 0x9F)
          else isCont b2
        if okB2 ∧ isCont b3 then
          (decodeUtf8Fuel fuel rest3).map
            (fun t => ((b - 0xE0) * 0x1000 + (b2 - 0x80) * 0x40 + (b3 - 0x80)) :: t)
        else none
    else if 0xF0 ≤ b ∧ b ≤ 0xF4 then
      match rest with
      | [] => none
      | [_] => none
      | [_, _] => none
      | b2 :: b3 :: b4 :: rest4 =>
        let okB2 : Bool :=
          if b = 0xF0 then decide (0x90 ≤ b2 ∧ b2 ≤ 0xBF)
          else if b = 0xF4 then decide (0x80 ≤ b2 ∧ b2 ≤ 0x8F)
          else isCont b2
        if okB2 ∧ isCont b3 ∧ isCont b4 then
          (decodeUtf8Fuel fuel rest4).map
            (fun t => ((b - 0xF0) * 0x40000 + (b2 - 0x80) * 0x1000 +
                       (b3 - 0x80) * 0x40 + (b4 - 0x80)) :: t)
        else none
    else none

/-- `std::str::from_utf8` on a byte sequence. -/
def decodeUtf8 (bytes : List Nat) : Option (List Nat) :=
  decodeUtf8Fuel bytes.length bytes

/-- `widestring::U16Str::chars_lossy()`: UTF-16 decoding in which every
unpaired surrogate unit becomes U+FFFD instead of an error.  Fuel-indexed for
structural recursion; the fuel is instantiated with the unit count. -/
def decodeUtf16LossyFuel : Nat → List Nat → List Nat
  | _, [] => []
  | 0, _ :: _ => []
  | fuel + 1, u :: rest =>
    if u < 0xD800 ∨ 0xE000 ≤ u then u :: decodeUtf16LossyFuel fuel rest
    else if u ≤ 0xDBFF then
      match rest with
      | [] => [0xFFFD]
      | u2 :: rest2 =>
        if 0xDC00 ≤ u2 ∧ u2 ≤ 0xDFFF then
          (0x10000 + (u - 0xD800) * 0x400 + (u2 - 0xDC00)) ::
            decodeUtf16LossyFuel fuel rest2
        else 0xFFFD :: decodeUtf16LossyFuel fuel rest
    else 0xFFFD :: decodeUtf16LossyFuel fuel rest

/-- Lossy UTF-16 decoding of a wide string. -/
def decodeUtf16Lossy (units : List Nat) : List Nat :=
  decodeUtf16LossyFuel units.length units

/-- `backtrace::BytesOrWideString`: a raw filename, either narrow bytes or
wide (16-bit) units. -/
inductive BytesOrWide
  | bytes (l : List Nat)
  | wide (l : List Nat)
deriving DecidableEq

/-- `backtrace::Symbol`, restricted to the accessors the source uses.
`name` holds the raw symbol-name bytes; `SymbolName::as_str()` succeeds
exactly when they are valid UTF-8. -/
structure Symbol where
  addr : Option Nat
  name : Option (List Nat)
  filenameRaw : Option BytesOrWide
  lineno : Option Nat
  colno : Option Nat
deriving DecidableEq

/-- `Call`: one resolved stack frame (name and filename are heapless strings
of byte capacity 500). -/
structure Call where
  name : Option (List Nat)
  filename : Option (List Nat)
  line : Option Nat
  col : Option Nat
  addr : Nat
deriving DecidableEq

/-- `impl From<&Symbol> for Call`.  `none` models a panic:
`value.addr().unwrap()`, `x.as_str().unwrap()`,
`std::str::from_utf8(bytes).unwrap()`, `HeaplessString::from` (which unwraps
internally) and `filename.push(c).unwrap()` can each fail. -/
def callFromSymbol (s : Symbol) : Option Call :=
  match s.addr with
  | none => none
  | some addr =>
    let nameRes : Option (Option (List Nat)) :=
      match s.name with
      | none => some none
      | some raw =>
        match decodeUtf8 raw with
        | none => none
        | some str =>
          match heaplessFromStr 500 str with
          | none => none
          | some hs => some (some hs)
    match nameRes with
    | none => none
    | some name =>
      let fileRes : Option (Option (List Nat)) :=
        match s.filenameRaw with
        | none => some none
        | some (BytesOrWide.bytes b) =>
          match decodeUtf8 b with
          | none => none
          | some str =>
            match heaplessFromStr 500 str with
            | none => none
            | some hs => some (some hs)
        | some (BytesOrWide.wide w) =>
          match pushChars 500 [] (decodeUtf16Lossy w) with
          | none => none
          | some hs => some (some hs)
      match fileRes with
      | none => none
      | some filename => some ⟨name, filename, s.lineno, s.colno, addr⟩

/-- `AllocationRecord<STACK_SIZE>`: metadata for one allocation.  The
capacity bound `stack.length ≤ K` is enforced by the push discipline of the
capture loop, proved below. -/
structure AllocationRecord (K : Nat) where
  size : Nat
  ptr : Nat
  stack : List Call
deriving DecidableEq

/-- Lookup in the registry map (extensional model of `hashbrown::HashMap`). -/
def mapLookup {α : Type} : List (Nat × α) → Nat → Option α
  | [], _ => none
  | (k, v) :: rest, a => if k = a then some v else mapLookup rest a

/-- `HashMap::remove` (the source discards the returned value). -/
def mapRemove {α : Type} : List (Nat × α) → Nat → List (Nat × α)
  | [], _ => []
  | (k, v) :: rest, a =>
    if k = a then mapRemove rest a else (k, v) :: mapRemove rest a

/-- `HashMap::insert`: the new binding replaces any previous one. -/
def mapInsert {α : Type} (m : List (Nat × α)) (k : Nat) (v : α) :
    List (Nat × α) :=
  (k, v) :: mapRemove m k

/-- The key set of the registry map. -/
def mapKeys {α : Type} (m : List (Nat × α)) : List Nat := m.map Prod.fst

/-- `LeakTracerInner<STACK_SIZE>`: the mutex-guarded map plus the atomic
enabled flag. -/
structure LeakTracerInner (K : Nat) where
  allocates : List (Nat × AllocationRecord K)
  enabled : Bool
deriving DecidableEq

/-- `impl Default for LeakTracerInner`: empty map, `enabled = true`. -/
def LeakTracerInner.default (K : Nat) : LeakTracerInner K := ⟨[], true⟩

/-- `LeakTracer::new()` wraps a `Lazy` whose first-use initializer is
`LeakTracerInner::default()`; the observable state after initialization is
that default. -/
def LeakTracer.new (K : Nat) : LeakTracerInner K := LeakTracerInner.default K

/-- `LeakTracer::disable()`. -/
def LeakTracer.disable {K : Nat} (st : LeakTracerInner K) : LeakTracerInner K :=
  { st with enabled := false }

/-- `LeakTracer::enable()`. -/
def LeakTracer.enable {K : Nat} (st : LeakTracerInner K) : LeakTracerInner K :=
  { st with enabled := true }

/-- The copy loop of `get_leaks`: iterate the source map, inserting each
cloned entry into a fresh map. -/
def copyEntries {K : Nat} (src : List (Nat × AllocationRecord K)) :
    List (Nat × AllocationRecord K) :=
  src.foldl (fun out kv => mapInsert out kv.1 kv.2) []

/-- `LeakTracer::get_leaks()`: save the flag, store `false`, copy every
entry into a fresh map, restore the saved flag, return the copy. -/
def get_leaks {K : Nat} (st : LeakTracerInner K) :
    List (Nat × AllocationRecord K) × LeakTracerInner K :=
  let cur := st.enabled
  let st1 := { st with enabled := false }
  let out := copyEntries st1.allocates
  let st2 := { st1 with enabled := cur }
  (out, st2)

/-- `heapless::Vec::<Call, K>::push(..)`, as called with `.unwrap()`: it
succeeds only while the length is below the capacity; `none` models the
panic on a full vector. -/
def vecPush (K : Nat) (v : List Call) (c : Call) : Option (List Call) :=
  if v.length < K then some (v ++ [c]) else none

/-- One frame's `resolve_frame_unsynchronized` visitor: one invocation per
symbol, each doing `stack.push(symbol.into()).unwrap(); count += 1;`. -/
def resolveFrame (K : Nat) :
    List Symbol → List Call → Nat → Option (List Call × Nat)
  | [], stack, count => some (stack, count)
  | s :: rest, stack, count =>
    match callFromSymbol s with
    | none => none
    | some c =>
      match vecPush K stack c with
      | none => none
      | some stack2 => resolveFrame K rest stack2 (count + 1)

/-- `backtrace::trace_unsynchronized` with the closure of
`alloc_accounting`: skip the first `skip` frames, resolve each later frame,
and stop (return `false` from the closure) once `count ≥ K`. -/
def traceFrames (K : Nat) :
    List (List Symbol) → Nat → List Call → Nat → Option (List Call)
  | [], _, stack, _ => some stack
  | f :: rest, skip, stack, count =>
    if 0 < skip then traceFrames K rest (skip - 1) stack count
    else
      match resolveFrame K f stack count with
      | none => none
      | some (stack2, count2) =>
        if K ≤ count2 then some stack2
        else traceFrames K rest 0 stack2 count2

/-- The whole stack-capture block of `alloc_accounting`: `skip_count = 2`,
empty heapless vector, `count = 0`.  The backtrace oracle is the `frames`
argument: one list of resolved symbols per raw frame, innermost first. -/
def captureStack (K : Nat) (frames : List (List Symbol)) : Option (List Call) :=
  traceFrames K frames 2 [] 0

/-- `LeakTracer::alloc_accounting(size, ptr)`: return `ptr` untouched when
tracking is disabled; otherwise capture the stack, build the record and
insert it under `ptr as usize` — whatever `ptr` is, null included. -/
def alloc_accounting (K : Nat) (st : LeakTracerInner K)
    (frames : List (List Symbol)) (size ptr : Nat) :
    Option (Nat × LeakTracerInner K) :=
  if st.enabled = false then some (ptr, st)
  else
    match captureStack K frames with
    | none => none
    | some stack =>
      some (ptr,
        { st with allocates := mapInsert st.allocates ptr ⟨size, ptr, stack⟩ })

/-- `LeakTracer::dealloc_accounting(ptr)`: remove the entry unless tracking
is disabled. -/
def dealloc_accounting {K : Nat} (st : LeakTracerInner K) (ptr : Nat) :
    LeakTracerInner K :=
  if st.enabled = false then st
  else { st with allocates := mapRemove st.allocates ptr }

/-- The calls the hook makes into the underlying `System` allocator. -/
inductive SysCall
  | alloc (size : Nat)
  | realloc (ptr newSize : Nat)
  | dealloc (ptr : Nat)
deriving DecidableEq

/-- `GlobalAlloc::alloc` of `LeakTracer`: `System.alloc` is the oracle input
`sysResult` (`0` models the null failure pointer), and its result is fed to
`alloc_accounting`.  Output: pointer handed to the caller, underlying
allocator calls made, new state; `none` models a panic inside accounting. -/
def allocHook (K : Nat) (st : LeakTracerInner K) (frames : List (List Symbol))
    (size sysResult : Nat) :
    Option (Nat × List SysCall × LeakTracerInner K) :=
  match alloc_accounting K st frames size sysResult with
  | none => none
  | some (p, st2) => some (p, [SysCall.alloc size], st2)

/-- `GlobalAlloc::realloc` of `LeakTracer`: call `System.realloc` (oracle
result `sysResult`); if the address moved, account a deallocation of the old
address then an allocation of the new one; return the new address. -/
def reallocHook (K : Nat) (st : LeakTracerInner K)
    (frames : List (List Symbol)) (ptr0 newSize sysResult : Nat) :
    Option (Nat × List SysCall × LeakTracerInner K) :=
  if sysResult ≠ ptr0 then
    let st1 := dealloc_accounting st ptr0
    match alloc_accounting K st1 frames newSize sysResult with
    | none => none
    | some (_, st2) => some (sysResult, [SysCall.realloc ptr0 newSize], st2)
  else some (sysResult, [SysCall.realloc ptr0 newSize], st)

/-- `GlobalAlloc::dealloc` of `LeakTracer`: accounting first, then the
unconditional `System.dealloc`.  It is total: no code path panics. -/
def deallocHook {K : Nat} (st : LeakTracerInner K) (ptr : Nat) :
    List SysCall × LeakTracerInner K :=
  ([SysCall.dealloc ptr], dealloc_accounting st ptr)

/-- One client-visible operation on the tracer.  Allocation operations carry
the underlying allocator's answer (`sysResult`) and the backtrace oracle's
answer (`frames`), which are properties of the execution environment, not of
the tracker state. -/
inductive Op
  | alloc (size sysResult : Nat) (frames : List (List Symbol))
  | realloc (ptr0 newSize sysResult : Nat) (frames : List (List Symbol))
  | dealloc (ptr : Nat)
  | enable
  | disable
  | getLeaks
deriving DecidableEq

/-- One step of the tracer: the pointers handed back to the caller, the
underlying allocator calls made, and the new state; `none` models a panic. -/
def step (K : Nat) (st : LeakTracerInner K) :
    Op → Option (List Nat × List SysCall × LeakTracerInner K)
  | Op.alloc size r frames =>
    match allocHook K st frames size r with
    | none => none
    | some (p, ev, st2) => some ([p], ev, st2)
  | Op.realloc p0 ns r frames =>
    match reallocHook K st frames p0 ns r with
    | none => none
    | some (p, ev, st2) => some ([p], ev, st2)
  | Op.dealloc p => some ([], (deallocHook st p).1, (deallocHook st p).2)
  | Op.enable => some ([], [], LeakTracer.enable st)
  | Op.disable => some ([], [], LeakTracer.disable st)
  | Op.getLeaks => some ([], [], (get_leaks st).2)

/-- Run a sequence of operations, concatenating outputs and events. -/
def run (K : Nat) (st : LeakTracerInner K) :
    List Op → Option (List Nat × List SysCall × LeakTracerInner K)
  | [] => some ([], [], st)
  | op :: rest =>
    match step K st op with
    | none => none
    | some (out, ev, st2) =>
      match run K st2 rest with
      | none => none
      | some (outs, evs, st3) => some (out ++ outs, ev ++ evs, st3)

/-- The pointers an unobserved run (calling the underlying allocator
directly) would hand to the caller: exactly the oracle answers. -/
def expectedOutputs : List Op → List Nat
  | [] => []
  | Op.alloc _ r _ :: rest => r :: expectedOutputs rest
  | Op.realloc _ _ r _ :: rest => r :: expectedOutputs rest
  | _ :: rest => expectedOutputs rest

/-- The underlying allocator calls an unobserved run would make. -/
def expectedEvents : List Op → List SysCall
  | [] => []
  | Op.alloc s _ _ :: rest => SysCall.alloc s :: expectedEvents rest
  | Op.realloc p0 ns _ _ :: rest => SysCall.realloc p0 ns :: expectedEvents rest
  | Op.dealloc p :: rest => SysCall.dealloc p :: expectedEvents rest
  | _ :: rest => expectedEvents rest

/-- Whether an operation is one of the three allocator-hook operations. -/
def isHookOp : Op → Bool
  | Op.alloc _ _ _ => true
  | Op.realloc _ _ _ _ => true
  | Op.dealloc _ => true
  | _ => false

/-- A sequence of allocate/reallocate/deallocate calls only. -/
def hookOnly (ops : List Op) : Bool := ops.all isHookOp

/-- Insertion into a set of addresses (represented as a duplicate-free
list). -/
def setInsert (s : List Nat) (a : Nat) : List Nat := if a ∈ s then s else a :: s

/-- Removal from a set of addresses. -/
def setRemove (s : List Nat) (a : Nat) : List Nat := s.filter (fun x => x ≠ a)

/-- Modelled from the claim's words, for comparison with the code: the set of
addresses allocated through the hook while tracking was enabled at
allocation time, minus those since deallocated (a moving reallocation
counting as deallocate-old then allocate-new). -/
def claimedLiveSet : Bool → List Nat → List Op → List Nat
  | _, acc, [] => acc
  | e, acc, Op.alloc _ r _ :: rest =>
    claimedLiveSet e (if e then setInsert acc r else acc) rest
  | e, acc, Op.realloc p0 _ r _ :: rest =>
    if r ≠ p0 then
      claimedLiveSet e
        (if e then setInsert (setRemove acc p0) r else setRemove acc p0) rest
    else claimedLiveSet e acc rest
  | e, acc, Op.dealloc p :: rest => claimedLiveSet e (setRemove acc p) rest
  | _, acc, Op.enable :: rest => claimedLiveSet true acc rest
  | _, acc, Op.disable :: rest => claimedLiveSet false acc rest
  | e, acc, Op.getLeaks :: rest => claimedLiveSet e acc rest

/-- The amended specification set: like `claimedLiveSet`, but a removal (by
deallocation or by the old-address half of a moving reallocation) takes
effect only when tracking is enabled at that later operation, matching the
flag check in `dealloc_accounting`. -/
def specLiveSet : Bool → List Nat → List Op → List Nat
  | _, acc, [] => acc
  | e, acc, Op.alloc _ r _ :: rest =>
    specLiveSet e (if e then setInsert acc r else acc) rest
  | e, acc, Op.realloc p0 _ r _ :: rest =>
    specLiveSet e
      (if r ≠ p0 ∧ e = true then setInsert (setRemove acc p0) r else acc) rest
  | e, acc, Op.dealloc p :: rest =>
    specLiveSet e (if e then setRemove acc p else acc) rest
  | _, acc, Op.enable :: rest => specLiveSet true acc rest
  | _, acc, Op.disable :: rest => specLiveSet false acc rest
  | e, acc, Op.getLeaks :: rest => specLiveSet e acc rest

/-- Concrete symbol that converts without incident. -/
def symOk : Symbol := ⟨some 7, none, none, none, none⟩

/-- Concrete symbol whose raw filename is the single byte `0xFF`, which is not
valid UTF-8. -/
def badSym : Symbol := ⟨some 1, none, some (BytesOrWide.bytes [255]), none, none⟩

/-- Concrete allocation record used in counterexamples and witnesses. -/
def rec8 : AllocationRecord 10 := ⟨8, 100, []⟩

/-- Single-allocation trace whose backtrace contains `badSym` after the two
skipped frames. -/
def cexOps : List Op := [Op.alloc 8 100 [[], [], [badSym]]]

/-- Trace: allocate at 100 while enabled, disable, then deallocate 100. -/
def c4Ops : List Op := [Op.alloc 8 100 [], Op.disable, Op.dealloc 100]

/-- Lookup after removal: the removed key reads `none`, others unchanged. -/
theorem lookup_mapRemove {α : Type} (m : List (Nat × α)) (k a : Nat) :
    mapLookup (mapRemove m k) a = if a = k then none else mapLookup m a := by
  induction m with
  | nil => simp [mapRemove, mapLookup]
  | cons kv rest ih =>
    obtain ⟨k1, v1⟩ := kv
    by_cases h1 : k1 = k <;> by_cases h2 : a = k <;>
      by_cases h3 : k1 = a <;>
      simp_all [mapRemove, mapLookup]

/-- Lookup after insertion: the inserted key reads the new value, others
unchanged. -/
theorem lookup_mapInsert {α : Type} (m : List (Nat × α)) (k a : Nat) (v : α) :
    mapLookup (mapInsert m k v) a = if a = k then some v else mapLookup m a := by
  unfold mapInsert
  by_cases h : k = a
  · subst h; simp [mapLookup]
  · have h2 : ¬a = k := fun hh => h hh.symm
    simp [mapLookup, h, h2, lookup_mapRemove]

/-- Removing an absent key leaves the map unchanged. -/
theorem mapRemove_absent {α : Type} (m : List (Nat × α)) (k : Nat)
    (h : mapLookup m k = none) : mapRemove m k = m := by
  induction m with
  | nil => rfl
  | cons kv rest ih =>
    obtain ⟨k1, v1⟩ := kv
    by_cases h1 : k1 = k
    · subst h1; simp [mapLookup] at h
    · simp only [mapLookup, if_neg h1] at h
      simp [mapRemove, h1, ih h]

/-- A key not among the map's keys reads `none`. -/
theorem lookup_of_not_mem_keys {α : Type} (m : List (Nat × α)) (a : Nat)
    (h : a ∉ mapKeys m) : mapLookup m a = none := by
  induction m with
  | nil => rfl
  | cons kv rest ih =>
    obtain ⟨k1, v1⟩ := kv
    simp only [mapKeys, List.map_cons, List.mem_cons] at h
    push_neg at h
    have h1 : ¬k1 = a := fun hh => h.1 hh.symm
    simp [mapLookup, h1, ih (by simpa [mapKeys] using h.2)]

/-- Membership in `setInsert`. -/
theorem mem_setInsert (s : List Nat) (a b : Nat) :
    a ∈ setInsert s b ↔ a = b ∨ a ∈ s := by
  unfold setInsert
  by_cases h : b ∈ s
  · simp only [if_pos h]
    constructor
    · exact fun hm => Or.inr hm
    · rintro (rfl | hm)
      · exact h
      · exact hm
  · simp [if_neg h]

/-- Membership in `setRemove`. -/
theorem mem_setRemove (s : List Nat) (a b : Nat) :
    a ∈ setRemove s b ↔ a ∈ s ∧ a ≠ b := by
  simp [setRemove, List.mem_filter]

/-- Successful `vecPush` means the vector had room, and appends. -/
theorem vecPush_some (K : Nat) (v : List Call) (c : Call) (v2 : List Call)
    (h : vecPush K v c = some v2) : v.length < K ∧ v2 = v ++ [c] := by
  unfold vecPush at h
  by_cases hl : v.length < K
  · rw [if_pos hl] at h
    exact ⟨hl, (Option.some.injEq _ _ ▸ h).symm⟩
  · rw [if_neg hl] at h
    cases h

/-- Resolving one frame never pushes the stack beyond the capacity. -/
theorem resolveFrame_length_le (K : Nat) (syms : List Symbol) :
    ∀ stack count stack2 count2,
      resolveFrame K syms stack count = some (stack2, count2) →
      stack.length ≤ K → stack2.length ≤ K := by
  induction syms with
  | nil =>
    intro stack count stack2 count2 h hle
    simp only [resolveFrame, Option.some.injEq, Prod.mk.injEq] at h
    exact h.1 ▸ hle
  | cons s rest ih =>
    intro stack count stack2 count2 h hle
    cases hc : callFromSymbol s with
    | none => simp [resolveFrame, hc] at h
    | some c =>
      cases hp : vecPush K stack c with
      | none => simp [resolveFrame, hc, hp] at h
      | some stackM =>
        have h2 : resolveFrame K rest stackM (count + 1) = some (stack2, count2) := by
          simpa [resolveFrame, hc, hp] using h
        obtain ⟨hlt, heq⟩ := vecPush_some K stack c stackM hp
        have : stackM.length ≤ K := by
          subst heq; simp; omega
        exact ih stackM (count + 1) stack2 count2 h2 this

/-- Resolving one frame keeps `count` equal to the stack length. -/
theorem resolveFrame_count (K : Nat) (syms : List Symbol) :
    ∀ stack count stack2 count2,
      resolveFrame K syms stack count = some (stack2, count2) →
      count = stack.length → count2 = stack2.length := by
  induction syms with
  | nil =>
    intro stack count stack2 count2 h hc
    simp only [resolveFrame, Option.some.injEq, Prod.mk.injEq] at h
    rw [← h.1, ← h.2]; exact hc
  | cons s rest ih =>
    intro stack count stack2 count2 h hc
    cases hs : callFromSymbol s with
    | none => simp [resolveFrame, hs] at h
    | some c =>
      cases hp : vecPush K stack c with
      | none => simp [resolveFrame, hs, hp] at h
      | some stackM =>
        have h2 : resolveFrame K rest stackM (count + 1) = some (stack2, count2) := by
          simpa [resolveFrame, hs, hp] using h
        obtain ⟨-, heq⟩ := vecPush_some K stack c stackM hp
        refine ih stackM (count + 1) stack2 count2 h2 ?_
        subst heq; simp [hc]

/-- The capture loop never returns a stack longer than the capacity. -/
theorem traceFrames_length_le (K : Nat) (frames : List (List Symbol)) :
    ∀ skip stack count s,
      traceFrames K frames skip stack count = some s →
      stack.length ≤ K → s.length ≤ K := by
  induction frames with
  | nil =>
    intro skip stack count s h hle
    simp only [traceFrames, Option.some.injEq] at h
    exact h ▸ hle
  | cons f rest ih =>
    intro skip stack count s h hle
    by_cases hskip : 0 < skip
    · have h2 : traceFrames K rest (skip - 1) stack count = some s := by
        simpa [traceFrames, hskip] using h
      exact ih _ _ _ _ h2 hle
    · cases hr : resolveFrame K f stack count with
      | none => simp [traceFrames, hskip, hr] at h
      | some pr =>
        obtain ⟨stack2, count2⟩ := pr
        have hlen := resolveFrame_length_le K f stack count stack2 count2 hr hle
        by_cases hK : K ≤ count2
        · have hs : stack2 = s := by
            simpa [traceFrames, hskip, hr, hK] using h
          exact hs ▸ hlen
        · have h2 : traceFrames K rest 0 stack2 count2 = some s := by
            simpa [traceFrames, hskip, hr, hK] using h
          exact ih _ _ _ _ h2 hlen

/-- Once the walk has succeeded with a full stack (having started below the
bound), appending further frames changes nothing: the stop condition fired. -/
theorem traceFrames_extend (K : Nat) (frames : List (List Symbol)) :
    ∀ extra skip stack count s,
      count = stack.length → count < K →
      traceFrames K frames skip stack count = some s → K ≤ s.length →
      traceFrames K (frames ++ extra) skip stack count = some s := by
  induction frames with
  | nil =>
    intro extra skip stack count s hcount hlt h hK
    simp only [traceFrames, Option.some.injEq] at h
    subst h
    omega
  | cons f rest ih =>
    intro extra skip stack count s hcount hlt h hK
    by_cases hskip : 0 < skip
    · have h2 : traceFrames K rest (skip - 1) stack count = some s := by
        simpa [traceFrames, hskip] using h
      have h3 := ih extra (skip - 1) stack count s hcount hlt h2 hK
      simpa [traceFrames, hskip] using h3
    · cases hr : resolveFrame K f stack count with
      | none => simp [traceFrames, hskip, hr] at h
      | some pr =>
        obtain ⟨stack2, count2⟩ := pr
        have hc2 := resolveFrame_count K f stack count stack2 count2 hr hcount
        by_cases hK2 : K ≤ count2
        · have hs : stack2 = s := by
            simpa [traceFrames, hskip, hr, hK2] using h
          simp [traceFrames, hskip, hr, hK2, hs]
        · have h2 : traceFrames K rest 0 stack2 count2 = some s := by
            simpa [traceFrames, hskip, hr, hK2] using h
          have h3 := ih extra 0 stack2 count2 s hc2 (by omega) h2 hK
          simpa [traceFrames, hskip, hr, hK2] using h3

/-- Byte length of a singleton append. -/
theorem strBytes_append_one (s : List Nat) (c : Nat) :
    strBytes (s ++ [c]) = strBytes s + utf8Len c := by
  simp [strBytes]

/-- Byte length of a cons. -/
theorem strBytes_cons (c : Nat) (s : List Nat) :
    strBytes (c :: s) = utf8Len c + strBytes s := by
  simp [strBytes]

/-- The push loop succeeds, appending everything, when the total fits. -/
theorem pushChars_ok (cap : Nat) (cs : List Nat) :
    ∀ acc, strBytes acc + strBytes cs ≤ cap →
      pushChars cap acc cs = some (acc ++ cs) := by
  induction cs with
  | nil => intro acc h; simp [pushChars]
  | cons c cs2 ih =>
    intro acc h
    rw [strBytes_cons] at h
    have h1 : strBytes acc + utf8Len c ≤ cap := by omega
    have h2 : strBytes (acc ++ [c]) + strBytes cs2 ≤ cap := by
      rw [strBytes_append_one]; omega
    have h3 := ih (acc ++ [c]) h2
    simp only [pushChars, heaplessPush, if_pos h1]
    simpa using h3

/-- A successful push loop appended exactly its input and stayed within the
capacity. -/
theorem pushChars_some (cap : Nat) (cs : List Nat) :
    ∀ acc r, pushChars cap acc cs = some r → strBytes acc ≤ cap →
      r = acc ++ cs ∧ strBytes r ≤ cap := by
  induction cs with
  | nil =>
    intro acc r h hle
    simp only [pushChars, Option.some.injEq] at h
    subst h; simp [hle]
  | cons c cs2 ih =>
    intro acc r h hle
    by_cases h1 : strBytes acc + utf8Len c ≤ cap
    · have h2 : pushChars cap (acc ++ [c]) cs2 = some r := by
        simpa [pushChars, heaplessPush, h1] using h
      have h3 := ih (acc ++ [c]) r h2 (by rw [strBytes_append_one]; omega)
      obtain ⟨hr, hb⟩ := h3
      exact ⟨by rw [hr]; simp, hr ▸ hb⟩
    · simp [pushChars, heaplessPush, h1] at h

/-- Successful alloc accounting hands back the pointer untouched and
preserves the flag. -/
theorem alloc_accounting_some (K : Nat) (st : LeakTracerInner K)
    (frames : List (List Symbol)) (size ptr p : Nat) (st2 : LeakTracerInner K)
    (h : alloc_accounting K st frames size ptr = some (p, st2)) :
    p = ptr ∧ st2.enabled = st.enabled := by
  unfold alloc_accounting at h
  by_cases he : st.enabled = false
  · rw [if_pos he] at h
    simp only [Option.some.injEq, Prod.mk.injEq] at h
    exact ⟨h.1.symm, by rw [← h.2]⟩
  · rw [if_neg he] at h
    cases hc : captureStack K frames with
    | none => rw [hc] at h; cases h
    | some stack =>
      rw [hc] at h
      simp only [Option.some.injEq, Prod.mk.injEq] at h
      exact ⟨h.1.symm, by rw [← h.2]⟩

/-- A successful step produces exactly the oracle's outputs and the
unobserved run's underlying-allocator calls. -/
theorem step_outputs (K : Nat) (st : LeakTracerInner K) (op : Op)
    (o : List Nat) (e : List SysCall) (st2 : LeakTracerInner K)
    (h : step K st op = some (o, e, st2)) :
    o = expectedOutputs [op] ∧ e = expectedEvents [op] := by
  cases op with
  | alloc size r frames =>
    cases ha : alloc_accounting K st frames size r with
    | none => simp [step, allocHook, ha] at h
    | some pr =>
      obtain ⟨p, stA⟩ := pr
      have hp := (alloc_accounting_some K st frames size r p stA ha).1
      have hstep : step K st (Op.alloc size r frames) =
          some ([p], [SysCall.alloc size], stA) := by
        simp [step, allocHook, ha]
      rw [hstep] at h
      simp only [Option.some.injEq, Prod.mk.injEq] at h
      rw [← h.1, ← h.2.1, hp]
      simp [expectedOutputs, expectedEvents]
  | realloc p0 ns r frames =>
    by_cases hmv : r ≠ p0
    · cases ha : alloc_accounting K (dealloc_accounting st p0) frames ns r with
      | none => simp [step, reallocHook, hmv, ha] at h
      | some pr =>
        obtain ⟨p, stA⟩ := pr
        have hstep : step K st (Op.realloc p0 ns r frames) =
            some ([r], [SysCall.realloc p0 ns], stA) := by
          simp [step, reallocHook, hmv, ha]
        rw [hstep] at h
        simp only [Option.some.injEq, Prod.mk.injEq] at h
        rw [← h.1, ← h.2.1]
        simp [expectedOutputs, expectedEvents]
    · have hstep : step K st (Op.realloc p0 ns r frames) =
          some ([r], [SysCall.realloc p0 ns], st) := by
        simp [step, reallocHook, hmv]
      rw [hstep] at h
      simp only [Option.some.injEq, Prod.mk.injEq] at h
      rw [← h.1, ← h.2.1]
      simp [expectedOutputs, expectedEvents]
  | dealloc p =>
    have hstep : step K st (Op.dealloc p) =
        some ([], [SysCall.dealloc p], dealloc_accounting st p) := by
      simp [step, deallocHook]
    rw [hstep] at h
    simp only [Option.some.injEq, Prod.mk.injEq] at h
    rw [← h.1, ← h.2.1]
    simp [expectedOutputs, expectedEvents]
  | enable =>
    have hstep : step K st Op.enable = some ([], [], LeakTracer.enable st) := rfl
    rw [hstep] at h
    simp only [Option.some.injEq, Prod.mk.injEq] at h
    rw [← h.1, ← h.2.1]
    simp [expectedOutputs, expectedEvents]
  | disable =>
    have hstep : step K st Op.disable = some ([], [], LeakTracer.disable st) := rfl
    rw [hstep] at h
    simp only [Option.some.injEq, Prod.mk.injEq] at h
    rw [← h.1, ← h.2.1]
    simp [expectedOutputs, expectedEvents]
  | getLeaks =>
    have hstep : step K st Op.getLeaks = some ([], [], (get_leaks st).2) := rfl
    rw [hstep] at h
    simp only [Option.some.injEq, Prod.mk.injEq] at h
    rw [← h.1, ← h.2.1]
    simp [expectedOutputs, expectedEvents]

/-- Any run that completes hands the caller exactly the oracle's pointers
and makes exactly the unobserved run's underlying-allocator calls, whatever
the tracker state. -/
theorem run_outputs (K : Nat) (ops : List Op) :
    ∀ (st : LeakTracerInner K) out ev st2,
      run K st ops = some (out, ev, st2) →
      out = expectedOutputs ops ∧ ev = expectedEvents ops := by
  induction ops with
  | nil =>
    intro st out ev st2 h
    simp only [run, Option.some.injEq, Prod.mk.injEq] at h
    exact ⟨h.1.symm, h.2.1.symm⟩
  | cons op rest ih =>
    intro st out ev st2 h
    cases hs : step K st op with
    | none => simp [run, hs] at h
    | some trip =>
      obtain ⟨o1, e1, stM⟩ := trip
      cases hr : run K stM rest with
      | none => simp [run, hs, hr] at h
      | some trip2 =>
        obtain ⟨outs, evs, st3⟩ := trip2
        have hrun : run K st (op :: rest) = some (o1 ++ outs, e1 ++ evs, st3) := by
          simp [run, hs, hr]
        rw [hrun] at h
        simp only [Option.some.injEq, Prod.mk.injEq] at h
        obtain ⟨ho, he⟩ := step_outputs K st op o1 e1 stM hs
        obtain ⟨iho, ihe⟩ := ih stM outs evs st3 hr
        constructor
        · rw [← h.1, ho, iho]
          cases op <;> simp [expectedOutputs]
        · rw [← h.2.1, he, ihe]
          cases op <;> simp [expectedEvents]

/-- A run with tracking disabled over hook operations only never panics: it
completes with the oracle outputs and leaves tracking disabled. -/
theorem run_disabled_total (K : Nat) (ops : List Op) :
    ∀ st : LeakTracerInner K, hookOnly ops = true → st.enabled = false →
      ∃ st2, run K st ops =
        some (expectedOutputs ops, expectedEvents ops, st2) ∧
        st2.enabled = false := by
  induction ops with
  | nil =>
    intro st _ hd
    exact ⟨st, by simp [run, expectedOutputs, expectedEvents], hd⟩
  | cons op rest ih =>
    intro st hh hd
    have hop : isHookOp op = true ∧ hookOnly rest = true := by
      simpa [hookOnly, List.all_cons, Bool.and_eq_true] using hh
    cases op with
    | alloc size r frames =>
      have hstep : step K st (Op.alloc size r frames) =
          some ([r], [SysCall.alloc size], st) := by
        simp [step, allocHook, alloc_accounting, hd]
      obtain ⟨st2, h2, hd2⟩ := ih st hop.2 hd
      exact ⟨st2, by simp [run, hstep, h2, expectedOutputs, expectedEvents], hd2⟩
    | realloc p0 ns r frames =>
      have hstep : step K st (Op.realloc p0 ns r frames) =
          some ([r], [SysCall.realloc p0 ns], st) := by
        by_cases hmv : r ≠ p0 <;>
          simp [step, reallocHook, dealloc_accounting, alloc_accounting, hd, hmv]
      obtain ⟨st2, h2, hd2⟩ := ih st hop.2 hd
      exact ⟨st2, by simp [run, hstep, h2, expectedOutputs, expectedEvents], hd2⟩
    | dealloc p =>
      have hstep : step K st (Op.dealloc p) =
          some ([], [SysCall.dealloc p], st) := by
        simp [step, deallocHook, dealloc_accounting, hd]
      obtain ⟨st2, h2, hd2⟩ := ih st hop.2 hd
      exact ⟨st2, by simp [run, hstep, h2, expectedOutputs, expectedEvents], hd2⟩
    | enable => exact absurd hop.1 (by simp [isHookOp])
    | disable => exact absurd hop.1 (by simp [isHookOp])
    | getLeaks => exact absurd hop.1 (by simp [isHookOp])

/-- The registry's key set, traced through a run, is exactly the amended
specification set: inserts happen for the address of every allocation (or
moving reallocation) performed while tracking is enabled, removals for every
deallocation (or old half of a moving reallocation) performed while tracking
is enabled. -/
theorem run_lookup_spec (K : Nat) (ops : List Op) :
    ∀ (st : LeakTracerInner K) (acc : List Nat) out ev st2,
      run K st ops = some (out, ev, st2) →
      (∀ a, (mapLookup st.allocates a).isSome = true ↔ a ∈ acc) →
      ∀ a, (mapLookup st2.allocates a).isSome = true ↔
        a ∈ specLiveSet st.enabled acc ops := by
  induction ops with
  | nil =>
    intro st acc out ev st2 h hinv a
    simp only [run, Option.some.injEq, Prod.mk.injEq] at h
    rw [← h.2.2]
    simpa [specLiveSet] using hinv a
  | cons op rest ih =>
    intro st acc out ev st2 h hinv a
    cases hs : step K st op with
    | none => simp [run, hs] at h
    | some trip =>
      obtain ⟨o1, e1, stM⟩ := trip
      cases hr : run K stM rest with
      | none => simp [run, hs, hr] at h
      | some trip2 =>
        obtain ⟨outs, evs, st3⟩ := trip2
        have hst23 : st3 = st2 := by
          have hrun : run K st (op :: rest) = some (o1 ++ outs, e1 ++ evs, st3) := by
            simp [run, hs, hr]
          rw [hrun] at h
          simp only [Option.some.injEq, Prod.mk.injEq] at h
          exact h.2.2
        rw [← hst23]
        cases op with
        | alloc size r frames =>
          cases he : st.enabled with
          | false =>
            have hstM : stM = st := by
              have hst : step K st (Op.alloc size r frames) =
                  some ([r], [SysCall.alloc size], st) := by
                simp [step, allocHook, alloc_accounting, he]
              rw [hst] at hs
              simp only [Option.some.injEq, Prod.mk.injEq] at hs
              exact hs.2.2.symm
            have hmain := ih stM acc outs evs st3 hr (by rw [hstM]; exact hinv)
            simpa [specLiveSet, he, hstM] using hmain a
          | true =>
            cases hc : captureStack K frames with
            | none =>
              have hst : step K st (Op.alloc size r frames) = none := by
                simp [step, allocHook, alloc_accounting, he, hc]
              rw [hst] at hs; cases hs
            | some stack =>
              have hstM : stM =
                  { st with allocates :=
                      mapInsert st.allocates r ⟨size, r, stack⟩ } := by
                have hst : step K st (Op.alloc size r frames) =
                    some ([r], [SysCall.alloc size],
                      { st with allocates :=
                          mapInsert st.allocates r ⟨size, r, stack⟩ }) := by
                  simp [step, allocHook, alloc_accounting, he, hc]
                rw [hst] at hs
                simp only [Option.some.injEq, Prod.mk.injEq] at hs
                exact hs.2.2.symm
              have hinv2 : ∀ b, (mapLookup stM.allocates b).isSome = true ↔
                  b ∈ setInsert acc r := by
                intro b
                rw [hstM]
                by_cases hb : b = r <;>
                  simp [lookup_mapInsert, mem_setInsert, hb, hinv b]
              have hen : stM.enabled = true := by rw [hstM]; exact he
              have hmain := ih stM (setInsert acc r) outs evs st3 hr hinv2
              simpa [specLiveSet, he, hen] using hmain a
        | realloc p0 ns r frames =>
          by_cases hmv : r ≠ p0
          · cases he : st.enabled with
            | false =>
              have hstM : stM = st := by
                have hst : step K st (Op.realloc p0 ns r frames) =
                    some ([r], [SysCall.realloc p0 ns], st) := by
                  simp [step, reallocHook, hmv, dealloc_accounting,
                    alloc_accounting, he]
                rw [hst] at hs
                simp only [Option.some.injEq, Prod.mk.injEq] at hs
                exact hs.2.2.symm
              have hmain := ih stM acc outs evs st3 hr (by rw [hstM]; exact hinv)
              simpa [specLiveSet, he, hmv, hstM] using hmain a
            | true =>
              cases hc : captureStack K frames with
              | none =>
                have hst : step K st (Op.realloc p0 ns r frames) = none := by
                  simp [step, reallocHook, hmv, dealloc_accounting,
                    alloc_accounting, he, hc]
                rw [hst] at hs; cases hs
              | some stack =>
                have hstM : stM =
                    { st with allocates :=
                        (mapInsert (mapRemove st.allocates p0) r
                          (AllocationRecord.mk ns r stack)) } := by
                  have hst : step K st (Op.realloc p0 ns r frames) =
                      some ([r], [SysCall.realloc p0 ns],
                        { st with allocates :=
                            (mapInsert (mapRemove st.allocates p0) r
                              (AllocationRecord.mk ns r stack)) }) := by
                    simp [step, reallocHook, hmv, dealloc_accounting,
                      alloc_accounting, he, hc]
                  rw [hst] at hs
                  simp only [Option.some.injEq, Prod.mk.injEq] at hs
                  exact hs.2.2.symm
                have hinv2 : ∀ b, (mapLookup stM.allocates b).isSome = true ↔
                    b ∈ setInsert (setRemove acc p0) r := by
                  intro b
                  rw [hstM]
                  by_cases hb : b = r
                  · simp [lookup_mapInsert, mem_setInsert, hb]
                  · by_cases hbp : b = p0 <;>
                      simp [lookup_mapInsert, lookup_mapRemove, mem_setInsert,
                        mem_setRemove, hb, hbp, hinv b]
                have hen : stM.enabled = true := by rw [hstM]; exact he
                have hmain := ih stM (setInsert (setRemove acc p0) r) outs evs
                  st3 hr hinv2
                simpa [specLiveSet, he, hmv, hen] using hmain a
          · have hstM : stM = st := by
              have hst : step K st (Op.realloc p0 ns r frames) =
                  some ([r], [SysCall.realloc p0 ns], st) := by
                simp [step, reallocHook, hmv]
              rw [hst] at hs
              simp only [Option.some.injEq, Prod.mk.injEq] at hs
              exact hs.2.2.symm
            have hmain := ih stM acc outs evs st3 hr (by rw [hstM]; exact hinv)
            simpa [specLiveSet, hmv, hstM] using hmain a
        | dealloc p =>
          cases he : st.enabled with
          | false =>
            have hstM : stM = st := by
              have hst : step K st (Op.dealloc p) =
                  some ([], [SysCall.dealloc p], st) := by
                simp [step, deallocHook, dealloc_accounting, he]
              rw [hst] at hs
              simp only [Option.some.injEq, Prod.mk.injEq] at hs
              exact hs.2.2.symm
            have hmain := ih stM acc outs evs st3 hr (by rw [hstM]; exact hinv)
            simpa [specLiveSet, he, hstM] using hmain a
          | true =>
            have hstM : stM =
                { st with allocates := mapRemove st.allocates p } := by
              have hst : step K st (Op.dealloc p) =
                  some ([], [SysCall.dealloc p],
                    { st with allocates := mapRemove st.allocates p }) := by
                simp [step, deallocHook, dealloc_accounting, he]
              rw [hst] at hs
              simp only [Option.some.injEq, Prod.mk.injEq] at hs
              exact hs.2.2.symm
            have hinv2 : ∀ b, (mapLookup stM.allocates b).isSome = true ↔
                b ∈ setRemove acc p := by
              intro b
              rw [hstM]
              by_cases hb : b = p <;>
                simp [lookup_mapRemove, mem_setRemove, hb, hinv b]
            have hen : stM.enabled = true := by rw [hstM]; exact he
            have hmain := ih stM (setRemove acc p) outs evs st3 hr hinv2
            simpa [specLiveSet, he, hen] using hmain a
        | enable =>
          have hstM : stM = LeakTracer.enable st := by
            have hst : step K st Op.enable =
                some ([], [], LeakTracer.enable st) := rfl
            rw [hst] at hs
            simp only [Option.some.injEq, Prod.mk.injEq] at hs
            exact hs.2.2.symm
          have hinv2 : ∀ b, (mapLookup stM.allocates b).isSome = true ↔
              b ∈ acc := by
            intro b; rw [hstM]; exact hinv b
          have hen : stM.enabled = true := by rw [hstM]; rfl
          have hmain := ih stM acc outs evs st3 hr hinv2
          simpa [specLiveSet, hen] using hmain a
        | disable =>
          have hstM : stM = LeakTracer.disable st := by
            have hst : step K st Op.disable =
                some ([], [], LeakTracer.disable st) := rfl
            rw [hst] at hs
            simp only [Option.some.injEq, Prod.mk.injEq] at hs
            exact hs.2.2.symm
          have hinv2 : ∀ b, (mapLookup stM.allocates b).isSome = true ↔
              b ∈ acc := by
            intro b; rw [hstM]; exact hinv b
          have hen : stM.enabled = false := by rw [hstM]; rfl
          have hmain := ih stM acc outs evs st3 hr hinv2
          simpa [specLiveSet, hen] using hmain a
        | getLeaks =>
          have hstM : stM = (get_leaks st).2 := by
            have hst : step K st Op.getLeaks =
                some ([], [], (get_leaks st).2) := rfl
            rw [hst] at hs
            simp only [Option.some.injEq, Prod.mk.injEq] at hs
            exact hs.2.2.symm
          have hinv2 : ∀ b, (mapLookup stM.allocates b).isSome = true ↔
              b ∈ acc := by
            intro b; rw [hstM]; exact hinv b
          have hen : stM.enabled = st.enabled := by rw [hstM]; rfl
          have hmain := ih stM acc outs evs st3 hr hinv2
          simpa [specLiveSet, hen] using hmain a

/-- Folding `mapInsert` over a duplicate-free source reproduces the source's
lookups, falling back to the accumulator for absent keys. -/
theorem lookup_foldl_insert (K : Nat) (src : List (Nat × AllocationRecord K)) :
    ∀ (acc : List (Nat × AllocationRecord K)) (a : Nat), (mapKeys src).Nodup →
      mapLookup (src.foldl (fun out kv => mapInsert out kv.1 kv.2) acc) a =
        if (mapLookup src a).isSome = true then mapLookup src a
        else mapLookup acc a := by
  induction src with
  | nil => intro acc a _; simp [mapLookup]
  | cons kv rest ih =>
    intro acc a hnd
    obtain ⟨k1, v1⟩ := kv
    have hnd0 : k1 ∉ mapKeys rest ∧ (mapKeys rest).Nodup := by
      simpa [mapKeys, List.nodup_cons] using hnd
    by_cases hak : a = k1
    · subst hak
      have hrest : mapLookup rest a = none :=
        lookup_of_not_mem_keys rest a hnd0.1
      rw [List.foldl_cons, ih (mapInsert acc a v1) a hnd0.2]
      simp [mapLookup, hrest, lookup_mapInsert]
    · have h1 : ¬k1 = a := fun hh => hak hh.symm
      rw [List.foldl_cons, ih (mapInsert acc k1 v1) a hnd0.2]
      simp [mapLookup, h1, lookup_mapInsert, lookup_mapRemove, hak]

/-- The `get_leaks` copy loop reproduces every lookup of a duplicate-free
registry. -/
theorem lookup_copyEntries (K : Nat) (src : List (Nat × AllocationRecord K))
    (hnd : (mapKeys src).Nodup) (a : Nat) :
    mapLookup (copyEntries src) a = mapLookup src a := by
  unfold copyEntries
  rw [lookup_foldl_insert K src [] a hnd]
  by_cases h : (mapLookup src a).isSome = true
  · simp [h]
  · rw [if_neg h]
    cases hv : mapLookup src a with
    | none => rfl
    | some v => rw [hv] at h; simp at h

/-- C1: evaluation of the hook at the failing input.  When `System.alloc`
fails (returns null, modelled as 0) with tracking enabled, the failure is
returned untouched to the caller, but — contrary to the claim — accounting
is still performed: an `AllocationRecord` of size 16 is inserted under
address 0. -/
theorem alloc_failure_still_accounted :
    allocHook 10 ⟨[], true⟩ [] 16 0 =
      some (0, [SysCall.alloc 16], ⟨[(0, ⟨16, 0, []⟩)], true⟩) ∧
    mapLookup [(0, (⟨16, 0, []⟩ : AllocationRecord 10))] 0 =
      some ⟨16, 0, []⟩ := by
  decide

/-- C2 counterexample: a single allocation whose backtrace resolves a symbol
with a malformed (non-UTF-8) narrow filename.  With tracking enabled the run
panics (`none`) and the caller never receives the pointer; with tracking
disabled it returns the pointer 100 — so the returned sequences differ,
refuting the claim as stated. -/
theorem transparency_cex :
    run 10 ⟨[], true⟩ cexOps = none ∧
    run 10 ⟨[], false⟩ cexOps =
      some ([100], [SysCall.alloc 8], ⟨[], false⟩) := by
  decide

/-- C2 (amended): whenever a run of the hook completes (accounting does not
panic), the pointers returned to the caller and the underlying-allocator
calls are exactly those of an unobserved run, regardless of the tracking
state; and with tracking disabled a run of allocate/reallocate/deallocate
calls always completes with those outputs. -/
theorem transparency_amended (K : Nat) :
    (∀ (ops : List Op) (st : LeakTracerInner K) out ev st2,
        run K st ops = some (out, ev, st2) →
        out = expectedOutputs ops ∧ ev = expectedEvents ops) ∧
    (∀ (ops : List Op) (st : LeakTracerInner K),
        hookOnly ops = true → st.enabled = false →
        ∃ st2, run K st ops =
          some (expectedOutputs ops, expectedEvents ops, st2)) := by
  constructor
  · intro ops st out ev st2 h
    exact run_outputs K ops st out ev st2 h
  · intro ops st hh hd
    obtain ⟨st2, h2, -⟩ := run_disabled_total K ops st hh hd
    exact ⟨st2, h2⟩

/-- C2 witness: the amended theorem applied at one enabled run and one
disabled run of a single allocation. -/
theorem transparency_amended_witness :
    ([100] = expectedOutputs [Op.alloc 8 100 []] ∧
      [SysCall.alloc 8] = expectedEvents [Op.alloc 8 100 []]) ∧
    ∃ st2, run 10 ⟨[], false⟩ [Op.alloc 8 100 []] =
      some (expectedOutputs [Op.alloc 8 100 []],
        expectedEvents [Op.alloc 8 100 []], st2) :=
  ⟨(transparency_amended 10).1 [Op.alloc 8 100 []] ⟨[], true⟩ [100]
      [SysCall.alloc 8] ⟨[(100, ⟨8, 100, []⟩)], true⟩ (by decide),
   (transparency_amended 10).2 [Op.alloc 8 100 []] ⟨[], false⟩ (by decide) rfl⟩

/-- C3 counterexample: a moving reallocation performed while tracking is
disabled.  The entry for the old pointer 100 is not removed and no entry is
inserted under the new address 200, refuting the claim as stated (which has
no enabled-flag condition). -/
theorem realloc_disabled_cex :
    reallocHook 10 ⟨[(100, rec8)], false⟩ [] 100 32 200 =
      some (200, [SysCall.realloc 100 32], ⟨[(100, rec8)], false⟩) ∧
    mapLookup [(100, rec8)] 100 = some rec8 ∧
    mapLookup [(100, rec8)] 200 = none := by
  decide

/-- C3 (amended): when tracking is enabled at the time of the call and the
returned address differs from the old pointer, the old entry is removed and
a fresh record (new size, fresh stack capture) is inserted under the new
address; when the returned address equals the old pointer the registry — and
the whole tracker state — is left unchanged, whatever the flag. -/
theorem reallocHook_spec (K : Nat) (st : LeakTracerInner K)
    (frames : List (List Symbol)) (p0 ns r : Nat) (stack : List Call)
    (hcap : captureStack K frames = some stack) :
    (st.enabled = true → r ≠ p0 →
        reallocHook K st frames p0 ns r =
          some (r, [SysCall.realloc p0 ns],
            ⟨mapInsert (mapRemove st.allocates p0) r ⟨ns, r, stack⟩, true⟩)) ∧
    (r = p0 → reallocHook K st frames p0 ns r =
        some (r, [SysCall.realloc p0 ns], st)) := by
  obtain ⟨m, en⟩ := st
  constructor
  · intro he hmv
    have he2 : en = true := he
    subst he2
    simp [reallocHook, hmv, dealloc_accounting, alloc_accounting, hcap]
  · intro hmv
    simp [reallocHook, hmv]

/-- C3 witness: the amended theorem applied to a concrete enabled moving
reallocation with an empty backtrace. -/
theorem reallocHook_spec_witness :
    reallocHook 10 ⟨[(100, rec8)], true⟩ [] 100 32 200 =
      some (200, [SysCall.realloc 100 32],
        ⟨mapInsert (mapRemove [(100, rec8)] 100) 200 ⟨32, 200, []⟩, true⟩) :=
  (reallocHook_spec 10 ⟨[(100, rec8)], true⟩ [] 100 32 200 [] (by decide)).1
    rfl (by decide)

/-- C4 counterexample: allocate 100 while enabled, disable, deallocate 100.
The deallocation happens while tracking is disabled, so the code leaves the
entry for 100 in the registry, while the claimed key set (allocated-while-
enabled minus since-deallocated) is empty. -/
theorem liveness_cex :
    run 10 ⟨[], true⟩ c4Ops =
      some ([100], [SysCall.alloc 8, SysCall.dealloc 100],
        ⟨[(100, ⟨8, 100, []⟩)], false⟩) ∧
    (mapLookup [(100, (⟨8, 100, []⟩ : AllocationRecord 10))] 100).isSome =
      true ∧
    100 ∉ claimedLiveSet true [] c4Ops := by
  decide

/-- C4 (amended): after any completed run from an empty registry, the
registry's key set is exactly the set of addresses allocated (or moved-to by
a reallocation) while tracking was enabled at that operation, minus those
since removed by a deallocation or moving reallocation performed while
tracking was enabled at that later operation. -/
theorem liveness_amended (K : Nat) (ops : List Op) (b : Bool)
    (out : List Nat) (ev : List SysCall) (st2 : LeakTracerInner K)
    (h : run K ⟨[], b⟩ ops = some (out, ev, st2)) :
    ∀ a, (mapLookup st2.allocates a).isSome = true ↔
      a ∈ specLiveSet b [] ops := by
  have hmain := run_lookup_spec K ops ⟨[], b⟩ [] out ev st2 h
    (by intro a; simp [mapLookup])
  simpa using hmain

/-- C4 witness: the amended theorem applied to a single enabled
allocation. -/
theorem liveness_amended_witness :
    (mapLookup [(100, (⟨8, 100, []⟩ : AllocationRecord 10))] 100).isSome =
      true ↔ 100 ∈ specLiveSet true [] [Op.alloc 8 100 []] :=
  liveness_amended 10 [Op.alloc 8 100 []] true [100] [SysCall.alloc 8]
    ⟨[(100, ⟨8, 100, []⟩)], true⟩ (by decide) 100

/-- C5 counterexample: with capacity 1, a single frame that resolves to two
symbols pushes past the full vector, and the capture panics
(`push(..).unwrap()` fails) instead of truncating; the same frame with one
symbol succeeds. -/
theorem captureStack_full_push_fails :
    captureStack 1 [[], [], [symOk, symOk]] = none ∧
    captureStack 1 [[], [], [symOk]] =
      some [⟨none, none, none, none, 7⟩] := by
  decide

/-- C5 (amended): a successful capture never yields more than K frames, and
the walk stops once K resolved frames have been collected (for K ≥ 1,
appending further raw frames cannot change a full successful capture);
however, pushing past the fixed capacity panics rather than truncating. -/
theorem captureStack_depth_bound (K : Nat) :
    (∀ frames s, captureStack K frames = some s → s.length ≤ K) ∧
    (∀ frames extra s, 0 < K → captureStack K frames = some s →
        s.length = K → captureStack K (frames ++ extra) = some s) := by
  constructor
  · intro frames s h
    exact traceFrames_length_le K frames 2 [] 0 s h (by simp)
  · intro frames extra s hK h hlen
    exact traceFrames_extend K frames extra 2 [] 0 s rfl hK h (by omega)

/-- C5 witness: the amended theorem applied at capacity 1 to a concrete
full capture and a concrete extension. -/
theorem captureStack_depth_bound_witness :
    ([(⟨none, none, none, none, 7⟩ : Call)].length ≤ 1) ∧
    captureStack 1 ([[], [], [symOk]] ++ [[symOk]]) =
      some [⟨none, none, none, none, 7⟩] :=
  ⟨(captureStack_depth_bound 1).1 [[], [], [symOk]] _ (by decide),
   (captureStack_depth_bound 1).2 [[], [], [symOk]] [[symOk]] _ (by decide)
     (by decide) (by decide)⟩

/-- C6 counterexample: converting a symbol whose narrow (byte) filename is
the malformed UTF-8 sequence `[0xFF]` panics (`from_utf8(bytes).unwrap()`)
instead of applying a lossy fallback. -/
theorem callFromSymbol_narrow_malformed_cex :
    callFromSymbol badSym = none := by
  decide

/-- C6 (amended): the conversion is lossy and total only for the wide
filename encoding within capacity; it panics on a malformed narrow (UTF-8)
filename, on any name or filename exceeding the 500-byte capacity (no
truncation), on a wide filename whose decoded form exceeds capacity, and on
a symbol with no address. -/
theorem callFromSymbol_conversion_spec :
    (∀ w a l c, strBytes (decodeUtf16Lossy w) ≤ 500 →
        callFromSymbol ⟨some a, none, some (BytesOrWide.wide w), l, c⟩ =
          some ⟨none, some (decodeUtf16Lossy w), l, c, a⟩) ∧
    (∀ w a l c, 500 < strBytes (decodeUtf16Lossy w) →
        callFromSymbol ⟨some a, none, some (BytesOrWide.wide w), l, c⟩ =
          none) ∧
    (∀ bs a l c, decodeUtf8 bs = none →
        callFromSymbol ⟨some a, none, some (BytesOrWide.bytes bs), l, c⟩ =
          none) ∧
    (∀ bs s a l c, decodeUtf8 bs = some s → 500 < strBytes s →
        callFromSymbol ⟨some a, none, some (BytesOrWide.bytes bs), l, c⟩ =
          none) ∧
    (∀ nm s a fn l c, decodeUtf8 nm = some s → 500 < strBytes s →
        callFromSymbol ⟨some a, some nm, fn, l, c⟩ = none) ∧
    (∀ nm fn l c, callFromSymbol ⟨none, nm, fn, l, c⟩ = none) := by
  refine ⟨?_, ?_, ?_, ?_, ?_, ?_⟩
  · intro w a l c h
    have hp : pushChars 500 [] (decodeUtf16Lossy w) =
        some (decodeUtf16Lossy w) := by
      have h0 : strBytes ([] : List Nat) + strBytes (decodeUtf16Lossy w) ≤
          500 := by
        simpa [strBytes] using h
      simpa using pushChars_ok 500 (decodeUtf16Lossy w) [] h0
    simp [callFromSymbol, hp]
  · intro w a l c h
    cases hp : pushChars 500 [] (decodeUtf16Lossy w) with
    | none => simp [callFromSymbol, hp]
    | some r =>
      obtain ⟨hr, hb⟩ := pushChars_some 500 (decodeUtf16Lossy w) [] r hp
        (by simp [strBytes])
      rw [hr] at hb
      simp only [List.nil_append] at hb
      exact absurd hb (by omega)
  · intro bs a l c h
    simp [callFromSymbol, h]
  · intro bs s a l c h h2
    have h3 : ¬strBytes s ≤ 500 := by omega
    simp [callFromSymbol, h, heaplessFromStr, h3]
  · intro nm s a fn l c h h2
    have h3 : ¬strBytes s ≤ 500 := by omega
    simp [callFromSymbol, h, heaplessFromStr, h3]
  · intro nm fn l c
    simp [callFromSymbol]

/-- C6 witness: the amended theorem applied to a malformed wide filename
(an unpaired surrogate, decoded lossily to U+FFFD without panic) and to the
malformed narrow filename `[0xFF]` (panic). -/
theorem callFromSymbol_conversion_spec_witness :
    callFromSymbol ⟨some 1, none, some (BytesOrWide.wide [0xD800]), none,
        none⟩ =
      some ⟨none, some (decodeUtf16Lossy [0xD800]), none, none, 1⟩ ∧
    callFromSymbol ⟨some 1, none, some (BytesOrWide.bytes [255]), none,
        none⟩ = none :=
  ⟨callFromSymbol_conversion_spec.1 [0xD800] 1 none none (by decide),
   callFromSymbol_conversion_spec.2.2.1 [255] 1 none none (by decide)⟩

/-- C7: `get_leaks` restores the enabled flag to exactly the value it held
immediately before the snapshot began (in particular it is never
unconditionally re-enabled). -/
theorem get_leaks_restores_enabled (K : Nat) (st : LeakTracerInner K) :
    ((get_leaks st).2).enabled = st.enabled := rfl

/-- C8: deallocation always forwards the real `System.dealloc` call,
whatever the flag or accounting outcome; with tracking enabled the entry for
the pointer is removed; with tracking disabled the state is untouched;
removing an absent key is a no-op (and the operation is total — never an
error); the flag itself is never changed. -/
theorem deallocHook_spec (K : Nat) (st : LeakTracerInner K) (p : Nat) :
    (deallocHook st p).1 = [SysCall.dealloc p] ∧
    (st.enabled = true →
        mapLookup ((deallocHook st p).2).allocates p = none) ∧
    (st.enabled = false → (deallocHook st p).2 = st) ∧
    (mapLookup st.allocates p = none →
        ((deallocHook st p).2).allocates = st.allocates) ∧
    ((deallocHook st p).2).enabled = st.enabled := by
  obtain ⟨m, en⟩ := st
  refine ⟨rfl, ?_, ?_, ?_, ?_⟩
  · intro he
    have he2 : en = true := he
    subst he2
    simp [deallocHook, dealloc_accounting, lookup_mapRemove]
  · intro he
    have he2 : en = false := he
    subst he2
    simp [deallocHook, dealloc_accounting]
  · intro habs
    cases en <;> simp [deallocHook, dealloc_accounting, mapRemove_absent m p habs]
  · cases en <;> simp [deallocHook, dealloc_accounting]

/-- C8 witness: the theorem applied to a concrete enabled state holding the
pointer being freed. -/
theorem deallocHook_spec_witness :
    (deallocHook (⟨[(100, rec8)], true⟩ : LeakTracerInner 10) 100).1 =
      [SysCall.dealloc 100] ∧
    mapLookup ((deallocHook (⟨[(100, rec8)], true⟩ : LeakTracerInner 10)
      100).2).allocates 100 = none :=
  ⟨(deallocHook_spec 10 ⟨[(100, rec8)], true⟩ 100).1,
   (deallocHook_spec 10 ⟨[(100, rec8)], true⟩ 100).2.1 rfl⟩

/-- C9: `get_leaks` leaves the registry exactly as it was (no entry removed
or mutated), and the returned map is an entry-for-entry copy of the registry
at the serialization point; being a copy, its later mutation cannot affect
the registry. -/
theorem get_leaks_copy_spec (K : Nat) (st : LeakTracerInner K)
    (hnd : (mapKeys st.allocates).Nodup) :
    ((get_leaks st).2).allocates = st.allocates ∧
    (∀ a, mapLookup (get_leaks st).1 a = mapLookup st.allocates a) := by
  refine ⟨rfl, fun a => ?_⟩
  have h1 : (get_leaks st).1 = copyEntries st.allocates := rfl
  rw [h1, lookup_copyEntries K st.allocates hnd a]

/-- C9 witness: the theorem applied to a concrete one-entry registry. -/
theorem get_leaks_copy_spec_witness :
    ((get_leaks (⟨[(100, rec8)], true⟩ : LeakTracerInner 10)).2).allocates =
      [(100, rec8)] ∧
    mapLookup (get_leaks (⟨[(100, rec8)], true⟩ : LeakTracerInner 10)).1
      100 = mapLookup [(100, rec8)] 100 :=
  ⟨(get_leaks_copy_spec 10 ⟨[(100, rec8)], true⟩ (by decide)).1,
   (get_leaks_copy_spec 10 ⟨[(100, rec8)], true⟩ (by decide)).2 100⟩

/-- C10: a freshly constructed tracer (after the lazy first-use
initialization of `LeakTracerInner::default()`) has tracking enabled and an
empty registry, so allocations are recorded without any prior call to
`enable()`. -/
theorem new_tracer_enabled_by_default (K : Nat) :
    (LeakTracer.new K).enabled = true ∧
    (LeakTracerInner.default K).enabled = true ∧
    (LeakTracer.new K).allocates = [] :=
  ⟨rfl, rfl, rfl⟩

end LeakDetect
